import Mathlib

/-!
Verification of the mtriage `Analyser` execution core
(`src/lib/common/analyser.py`): the per-element retry/skip/error
classification of `__attempt_analyse`, the element loop of `analyse`
(destination-query management and the `delete_local_on_write` flag),
and the run lifecycle of `start_analysing` (input reading, dispatch,
post phase, completion-metadata writing).
-/

namespace Mtriage

/-- An element: an addressed reference to one unit of media.  Its `query`
is the storage path it was read from, modelled as a list of path segments
(the first segment is the selector name); `eid` stands for the payload
identity. -/
structure Elem where
  query : List String
  eid : Nat
deriving DecidableEq, Repr

/-- The outcome of one call of the user extension point
`analyse_element(element, config)`: it returns `None`, returns a new
element, or raises one of `ElementShouldSkipError`,
`ElementShouldRetryError`, or an unclassified exception (each carrying
its message). -/
inductive ExtOutcome where
  | retNone : ExtOutcome
  | retElem : Elem → ExtOutcome
  | raiseSkip : String → ExtOutcome
  | raiseRetry : String → ExtOutcome
  | raiseOther : String → ExtOutcome
deriving DecidableEq, Repr

/-- The behaviour of one attempt on an element: the extension point's
outcome, and whether `disk.write_element` would return `True` if a write
is attempted (the Storage contract reports a recoverable write failure
as the boolean `False`, not an exception). -/
structure AttemptBehavior where
  ext : ExtOutcome
  writeOk : Bool
deriving DecidableEq, Repr

/-- One successful `write_element` call, as recorded by the storage:
destination query, the element written, and the value the storage's
`delete_local_on_write` flag had at the moment of the write. -/
structure WriteRec where
  dest : String
  el : Elem
  delLocal : Bool
deriving DecidableEq, Repr

/-- The written element together with its destination, forgetting the
`delete_local_on_write` flag: the user-visible output of a write. -/
def projW (w : WriteRec) : String × Elem :=
  (w.dest, w.el)

/-- The observable run state threaded through the stage: the `dest_q`
cell, the history of `set_dest_q` assignments, the successful writes, the
`error_logger` records, one entry per `__attempt_analyse` invocation, the
run's `errored` flag, the storage's `delete_local_on_write` flag, and the
paths passed to `write_meta`. -/
structure RunState where
  destQ : String
  destSets : List String
  written : List WriteRec
  errLogs : List (String × Elem)
  attemptLog : List Elem
  errored : Bool
  deleteLocalOnWrite : Bool
  metaWrites : List String
deriving DecidableEq, Repr

/-- The run state at `start_analysing` entry: `errored` is `False` (class
attribute default), nothing written or logged; `d0` is the storage
backend's default value of `delete_local_on_write`. -/
def initState (d0 : Bool) : RunState :=
  { destQ := "", destSets := [], written := [], errLogs := [],
    attemptLog := [], errored := false, deleteLocalOnWrite := d0,
    metaWrites := [] }

/-- `self.error_logger(msg, element)`. -/
def errorLog (st : RunState) (msg : String) (e : Elem) : RunState :=
  { st with errLogs := st.errLogs ++ [(msg, e)] }

/-- The message `__attempt_analyse` logs when retries are exhausted. -/
def exhaustMsg : String := "failed after maximum retries - skipping element"

/-- The state update of `__attempt_analyse` when retries are exhausted
(`attempts == 1` branch): log the exhaustion and set the run's `errored`
flag. -/
def exhaustState (st : RunState) (e : Elem) : RunState :=
  { (errorLog st exhaustMsg e) with errored := true }

/-- Modelled from the spec: `Storage.read_query` (the `Storage` class is
not under `src/`) is the pure decomposition of a query into
`(selector_name, remainder)`, the first segment naming the originating
stage (spec section 4.3). -/
def read_query (q : List String) : String × List String :=
  (q.headD "", q.tail)

/-- The destination query the `analyse` loop assigns for an element:
`f"{og_query[0]}/{self.name}"` where `og_query = read_query(element.query)`. -/
def destOf (name : String) (e : Elem) : String :=
  (read_query e.query).1 ++ "/" ++ name

/-- `set_dest_q`: write the shared `dest_q` cell (`.value` in parallel
mode, plain attribute otherwise: both are one mutable cell); we also keep
the history of assignments to reason about when it changes. -/
def setDestQ (st : RunState) (v : String) : RunState :=
  { st with destQ := v, destSets := st.destSets ++ [v] }

/-- One invocation of `__attempt_analyse` whose `attempts` value is `0`
or `1`, so the `attempts > 1` test is false and the should-retry path
ends in the exhausted-retries branch.  Shared body of the two
non-recursive cases of `attemptAnalyse`. -/
def attemptFloor (isDev : Bool) (b : Nat → AttemptBehavior) (e : Elem)
    (n : Nat) (st : RunState) : Except (String × RunState) RunState :=
  let st1 : RunState := { st with attemptLog := st.attemptLog ++ [e] }
  match (b n).ext with
  | ExtOutcome.retNone => Except.ok st1
  | ExtOutcome.retElem ne =>
    if (b n).writeOk then
      Except.ok { st1 with
        written := st1.written ++ [⟨st1.destQ, ne, st1.deleteLocalOnWrite⟩] }
    else Except.ok (exhaustState (errorLog st1 "Unsuccessful storage" e) e)
  | ExtOutcome.raiseSkip msg => Except.ok (errorLog st1 msg e)
  | ExtOutcome.raiseRetry msg => Except.ok (exhaustState (errorLog st1 msg e) e)
  | ExtOutcome.raiseOther msg =>
    if isDev then Except.error (msg, st1)
    else Except.ok (errorLog st1 (msg ++ ": skipping element") e)

/-- `Analyser.__attempt_analyse(attempts, element)`.  The extension point
`analyse_element` is abstract; `b` gives the behaviour of the attempt
made with a given value of the `attempts` counter (the first attempt is
`b 5`, the next `b 4`, …).  Faithful to the source: a `None` result
returns with no write; a returned element is written and a `False` write
result raises `ElementShouldRetryError("Unsuccessful storage")`;
should-skip is logged and terminal; should-retry is logged and re-invoked
with `attempts - 1` while `attempts > 1` (the `m + 2` patterns), else
exhausts (`attemptFloor`); any other exception propagates in dev mode
(`Except.error` carrying the message and the state at the raise) and is
otherwise logged and terminal. -/
def attemptAnalyse (isDev : Bool) (b : Nat → AttemptBehavior) (e : Elem) :
    Nat → RunState → Except (String × RunState) RunState
  | 0, st => attemptFloor isDev b e 0 st
  | 1, st => attemptFloor isDev b e 1 st
  | m + 2, st =>
    let st1 : RunState := { st with attemptLog := st.attemptLog ++ [e] }
    match (b (m + 2)).ext with
    | ExtOutcome.retNone => Except.ok st1
    | ExtOutcome.retElem ne =>
      if (b (m + 2)).writeOk then
        Except.ok { st1 with
          written := st1.written ++ [⟨st1.destQ, ne, st1.deleteLocalOnWrite⟩] }
      else attemptAnalyse isDev b e (m + 1) (errorLog st1 "Unsuccessful storage" e)
    | ExtOutcome.raiseSkip msg => Except.ok (errorLog st1 msg e)
    | ExtOutcome.raiseRetry msg =>
      attemptAnalyse isDev b e (m + 1) (errorLog st1 msg e)
    | ExtOutcome.raiseOther msg =>
      if isDev then Except.error (msg, st1)
      else Except.ok (errorLog st1 (msg ++ ": skipping element") e)

/-- `Analyser.analyse(elements)`: for each element, reassign `dest_q`
from the element's own query, run `__attempt_analyse(5, element)`, then
set `disk.delete_local_on_write = False`.  `beh e` is the behaviour of
the extension point on element `e`. -/
def analyse (isDev : Bool) (name : String) (beh : Elem → Nat → AttemptBehavior) :
    List Elem → RunState → Except (String × RunState) RunState
  | [], st => Except.ok st
  | e :: rest, st =>
    match attemptAnalyse isDev (beh e) e 5 (setDestQ st (destOf name e)) with
    | Except.error x => Except.error x
    | Except.ok st2 =>
      analyse isDev name beh rest { st2 with deleteLocalOnWrite := false }

/-- `Analyser.get_selector`: concatenate (with no separator) the selector
names of all queries in `config["elements_in"]`. -/
def get_selector (elements_in : List (List String)) : String :=
  List.foldl (fun acc q => acc ++ (read_query q).1) "" elements_in

/-- The path `f"{self.get_selector()}/{self.name}"` under which
`start_analysing` writes the completion metadata record. -/
def metaPath (elements_in : List (List String)) (name : String) : String :=
  get_selector elements_in ++ "/" ++ name

/-- Modelled from the spec: `Analyser.__post_analyse` reads the analysed
elements back from storage (`Storage.read_elements` is not under `src/`;
per spec section 4.3 it resolves the destination query with no side
effect on the run state) and calls the user's `post_analyse`, whose
default implementation returns `None`, upon which the phase returns
before any aggregate write.  With the default hook the phase is therefore
a no-op on the observable state. -/
def postAnalyse (st : RunState) : RunState := st

/-- The query list `__post_analyse` passes to `Storage.read_elements` to
collect the analysed elements for the user's `post_analyse` hook:
`[self.get_dest_q()]` — the single current value of the `dest_q` cell
(the destination of the last element processed by the main phase), not
the concatenated `get_selector` path used for the metadata record. -/
def postReadQueries (st : RunState) : List String := [st.destQ]

/-- `Analyser.start_analysing` composed with `__analyse`:
`pre_analyse` (default hook: no-op), read the input elements
(`readResult` is the storage's answer to
`read_elements(config["elements_in"])`; a read failure raises
`InvalidAnalyserElements`, as does an empty result), dispatch the main
phase over the elements, run the post phase, and — only if the run is not
`errored` — write the completion metadata record.

Modelled from the spec: the `@MTModule.phase` parallel dispatcher is not
under `src/`; per spec section 4.2 a parallel run executes the same
per-element work with no ordering guarantee, which is modelled by running
the serial loop over `sched`, an arbitrary schedule (permutation) of the
input elements, when `inParallel` is true. -/
def startAnalysing (isDev : Bool) (inParallel : Bool) (name : String)
    (elements_in : List (List String)) (readResult : Except Unit (List Elem))
    (sched : List Elem) (beh : Elem → Nat → AttemptBehavior) (st0 : RunState) :
    Except (String × RunState) RunState :=
  match readResult with
  | Except.error _ =>
    Except.error
      ("The 'elements_in' you specified does not exist on the storage specified.", st0)
  | Except.ok elements =>
    if elements.length = 0 then
      Except.error
        ("No elements could be found at the location you tried to select or passed in.", st0)
    else
      match analyse isDev name beh (if inParallel then sched else elements) st0 with
      | Except.error x => Except.error x
      | Except.ok st1 =>
        let st2 := postAnalyse st1
        if st2.errored then Except.ok st2
        else Except.ok { st2 with metaWrites := st2.metaWrites ++ [metaPath elements_in name] }

/-! Characterization functions: pure descriptions of what one
`__attempt_analyse` call does, mirroring its recursion on the `attempts`
counter, used to state and prove the claims. -/

/-- Whether one attempt's behaviour takes the should-retry path of
`__attempt_analyse`: the extension point raised
`ElementShouldRetryError`, or it returned an element whose write
returned `False`. -/
def shouldRetryAttempt (a : AttemptBehavior) : Bool :=
  match a.ext with
  | ExtOutcome.raiseRetry _ => true
  | ExtOutcome.retElem _ => !a.writeOk
  | _ => false

/-- Whether `__attempt_analyse` called with this `attempts` value ends in
the exhausted-retries branch (every remaining attempt takes the
should-retry path). -/
def exhausts (b : Nat → AttemptBehavior) : Nat → Bool
  | 0 => shouldRetryAttempt (b 0)
  | 1 => shouldRetryAttempt (b 1)
  | m + 2 => shouldRetryAttempt (b (m + 2)) && exhausts b (m + 1)

/-- How many invocations of `__attempt_analyse` a call with this
`attempts` value performs (the initial call plus the recursive retries). -/
def attemptCount (b : Nat → AttemptBehavior) : Nat → Nat
  | 0 => 1
  | 1 => 1
  | m + 2 => if shouldRetryAttempt (b (m + 2)) then 1 + attemptCount b (m + 1) else 1

/-- The single write (if any) of a non-recursing `__attempt_analyse`
invocation. -/
def attemptWritesBase (b : Nat → AttemptBehavior) (dq : String) (d0 : Bool)
    (n : Nat) : List WriteRec :=
  match (b n).ext with
  | ExtOutcome.retElem ne => if (b n).writeOk then [⟨dq, ne, d0⟩] else []
  | _ => []

/-- The successful writes `__attempt_analyse` performs, given the
destination query `dq` and the `delete_local_on_write` value `d0` in
force during the attempt chain. -/
def attemptWritesF (b : Nat → AttemptBehavior) (dq : String) (d0 : Bool) :
    Nat → List WriteRec
  | 0 => attemptWritesBase b dq d0 0
  | 1 => attemptWritesBase b dq d0 1
  | m + 2 =>
    match (b (m + 2)).ext with
    | ExtOutcome.retElem ne =>
      if (b (m + 2)).writeOk then [⟨dq, ne, d0⟩]
      else attemptWritesF b dq d0 (m + 1)
    | ExtOutcome.raiseRetry _ => attemptWritesF b dq d0 (m + 1)
    | _ => []

/-- The writes of a whole `analyse` batch: the first element's attempt
chain runs under the incoming `delete_local_on_write` value `d0`, every
later element under `false` (the loop clears the flag after each
element). -/
def batchWritesF (name : String) (beh : Elem → Nat → AttemptBehavior) :
    Bool → List Elem → List WriteRec
  | _, [] => []
  | d0, e :: rest =>
    attemptWritesF (beh e) (destOf name e) d0 5 ++ batchWritesF name beh false rest

/-- The user-visible outputs of one element's attempt chain (destination
and element of each successful write, flag forgotten). -/
def elemOutputs (name : String) (beh : Elem → Nat → AttemptBehavior) (e : Elem) :
    List (String × Elem) :=
  (attemptWritesF (beh e) (destOf name e) true 5).map projW

/-- The final run state of a stage invocation, whether it returned
normally or propagated an exception: either way the state reflects the
durable effects (disk writes, logs) performed up to that point. -/
def okayState (r : Except (String × RunState) RunState) : RunState :=
  match r with
  | Except.ok st => st
  | Except.error x => x.2

/-- Whether a stage invocation returned normally. -/
def isOkRun (r : Except (String × RunState) RunState) : Bool :=
  match r with
  | Except.ok _ => true
  | Except.error _ => false

/-! Concrete runs used to settle individual claims on explicit inputs. -/

/-- Extension point for the C2 scenario: element 1 always raises
should-retry (and so exhausts), element 2 returns an element that is
written successfully. -/
def c2beh : Elem → Nat → AttemptBehavior := fun e _ =>
  if e.eid = 1 then AttemptBehavior.mk (ExtOutcome.raiseRetry "down") true
  else AttemptBehavior.mk (ExtOutcome.retElem ⟨["s", "an"], 20⟩) true

/-- The C2 scenario: a serial production run over two elements of
selector `s`, the first exhausting its retries, the second succeeding. -/
def c2run : Except (String × RunState) RunState :=
  startAnalysing false false "an" [["s"]]
    (Except.ok [⟨["s"], 1⟩, ⟨["s"], 2⟩]) [] c2beh (initState true)

/-- Extension point for the C3 scenario: every element is analysed and
written successfully. -/
def c3beh : Elem → Nat → AttemptBehavior := fun e _ =>
  AttemptBehavior.mk (ExtOutcome.retElem ⟨["s", "an"], e.eid + 10⟩) true

/-- The C3 scenario: a three-element batch, all writes succeeding, with
the storage's `delete_local_on_write` flag initially `true` (its
default). -/
def c3run : Except (String × RunState) RunState :=
  analyse false "an" c3beh [⟨["s"], 1⟩, ⟨["s"], 2⟩, ⟨["s"], 3⟩] (initState true)

/-- Extension point for the C4 scenario: every element is analysed and
written successfully. -/
def c4beh : Elem → Nat → AttemptBehavior := fun e _ =>
  AttemptBehavior.mk (ExtOutcome.retElem ⟨e.query ++ ["an"], e.eid + 10⟩) true

/-- The C4 scenario: a batch whose two elements come from two different
input selectors `sa` and `sb`. -/
def c4run : Except (String × RunState) RunState :=
  analyse false "an" c4beh [⟨["sa"], 1⟩, ⟨["sb"], 2⟩] (initState true)

/-- Extension point for the C9 scenario: element 1 raises an unclassified
exception, element 2 returns an element that is written successfully. -/
def c9beh : Elem → Nat → AttemptBehavior := fun e _ =>
  if e.eid = 1 then AttemptBehavior.mk (ExtOutcome.raiseOther "boom") true
  else AttemptBehavior.mk (ExtOutcome.retElem ⟨["s", "an"], 20⟩) true

/-- The C9 scenario run with `in_parallel = true` in dev mode, under the
schedule that attempts element 2 first. -/
def c9parallelRun : Except (String × RunState) RunState :=
  startAnalysing true true "an" [["s"]]
    (Except.ok [⟨["s"], 1⟩, ⟨["s"], 2⟩]) [⟨["s"], 2⟩, ⟨["s"], 1⟩] c9beh (initState true)

/-- The C9 scenario run with `in_parallel = false` in dev mode: the
serial loop attempts element 1 first and aborts before any write. -/
def c9serialRun : Except (String × RunState) RunState :=
  startAnalysing true false "an" [["s"]]
    (Except.ok [⟨["s"], 1⟩, ⟨["s"], 2⟩]) [⟨["s"], 2⟩, ⟨["s"], 1⟩] c9beh (initState true)

/-- Extension point for the C10 witness scenario: every element is
analysed and written successfully. -/
def c10beh : Elem → Nat → AttemptBehavior := fun e _ =>
  AttemptBehavior.mk (ExtOutcome.retElem ⟨e.query ++ ["an"], e.eid + 10⟩) true

/-- The C10 witness scenario: a completing run whose `elements_in` holds
two input queries with selector names `sa` and `sb`. -/
def c10run : Except (String × RunState) RunState :=
  startAnalysing false false "an" [["sa"], ["sb"]]
    (Except.ok [⟨["sa"], 1⟩, ⟨["sb"], 2⟩]) [] c10beh (initState true)

/-- The main-phase batch of the C10 scenario on its own: its final state
is the state `__post_analyse` runs on, so `postReadQueries` of it is the
query list the post-phase aggregate read uses. -/
def c10batch : Except (String × RunState) RunState :=
  analyse false "an" c10beh [⟨["sa"], 1⟩, ⟨["sb"], 2⟩] (initState true)

/-! Core characterization lemmas relating `attemptAnalyse` to the pure
description functions. -/

/-- What a non-recursing `__attempt_analyse` invocation does to the
state, when it returns normally. -/
lemma attemptFloor_ok_spec (isDev : Bool) (b : Nat → AttemptBehavior) (e : Elem)
    (n : Nat) (st st' : RunState)
    (h : attemptFloor isDev b e n st = Except.ok st') :
    st'.written = st.written ++ attemptWritesBase b st.destQ st.deleteLocalOnWrite n ∧
    st'.errored = (st.errored || shouldRetryAttempt (b n)) ∧
    st'.attemptLog = st.attemptLog ++ [e] ∧
    st'.destQ = st.destQ ∧
    st'.destSets = st.destSets ∧
    st'.deleteLocalOnWrite = st.deleteLocalOnWrite ∧
    st'.metaWrites = st.metaWrites ∧
    (∃ L, st'.errLogs = st.errLogs ++ L) ∧
    (shouldRetryAttempt (b n) = true → (exhaustMsg, e) ∈ st'.errLogs) := by
  unfold attemptFloor at h
  cases hext : (b n).ext <;>
    simp only [hext, shouldRetryAttempt, attemptWritesBase] at h ⊢
  case retNone =>
    cases h
    simp
  case retElem ne =>
    by_cases hw : (b n).writeOk <;> simp only [hw, if_true, if_false] at h ⊢
    · cases h
      simp
    · cases h
      refine ⟨by simp [exhaustState, errorLog], by simp [exhaustState, errorLog],
        by simp [exhaustState, errorLog], by simp [exhaustState, errorLog],
        by simp [exhaustState, errorLog], by simp [exhaustState, errorLog],
        by simp [exhaustState, errorLog],
        ⟨[("Unsuccessful storage", e), (exhaustMsg, e)], by simp [exhaustState, errorLog]⟩,
        fun _ => by simp [exhaustState, errorLog]⟩
  case raiseSkip m =>
    cases h
    exact ⟨by simp [errorLog], by simp [errorLog], by simp [errorLog],
      by simp [errorLog], by simp [errorLog], by simp [errorLog], by simp [errorLog],
      ⟨[(m, e)], by simp [errorLog]⟩, by simp⟩
  case raiseRetry m =>
    cases h
    refine ⟨by simp [exhaustState, errorLog], by simp [exhaustState, errorLog],
      by simp [exhaustState, errorLog], by simp [exhaustState, errorLog],
      by simp [exhaustState, errorLog], by simp [exhaustState, errorLog],
      by simp [exhaustState, errorLog],
      ⟨[(m, e), (exhaustMsg, e)], by simp [exhaustState, errorLog]⟩,
      fun _ => by simp [exhaustState, errorLog]⟩
  case raiseOther m =>
    by_cases hd : isDev <;> simp only [hd, if_true, if_false] at h
    · cases h
    · cases h
      exact ⟨by simp [errorLog], by simp [errorLog], by simp [errorLog],
        by simp [errorLog], by simp [errorLog], by simp [errorLog], by simp [errorLog],
        ⟨[(m ++ ": skipping element", e)], by simp [errorLog]⟩, by simp⟩

/-- Master characterization of `__attempt_analyse` when it returns
normally: its effect on the state is exactly described by
`attemptWritesF`, `exhausts` and `attemptCount`; it never touches
`dest_q`, the `set_dest_q` history, `delete_local_on_write` or the
metadata writes; it only appends to the error log; and whenever it
exhausts its retries the exhaustion message is logged. -/
lemma attempt_ok_spec (isDev : Bool) (b : Nat → AttemptBehavior) (e : Elem) :
    ∀ (n : Nat) (st st' : RunState),
      attemptAnalyse isDev b e n st = Except.ok st' →
      st'.written = st.written ++ attemptWritesF b st.destQ st.deleteLocalOnWrite n ∧
      st'.errored = (st.errored || exhausts b n) ∧
      st'.attemptLog = st.attemptLog ++ List.replicate (attemptCount b n) e ∧
      st'.destQ = st.destQ ∧
      st'.destSets = st.destSets ∧
      st'.deleteLocalOnWrite = st.deleteLocalOnWrite ∧
      st'.metaWrites = st.metaWrites ∧
      (∃ L, st'.errLogs = st.errLogs ++ L) ∧
      (exhausts b n = true → (exhaustMsg, e) ∈ st'.errLogs) := by
  intro n
  induction n using Nat.twoStepInduction with
  | zero =>
    intro st st' h
    simpa [attemptAnalyse, attemptWritesF, exhausts, attemptCount] using
      attemptFloor_ok_spec isDev b e 0 st st' h
  | one =>
    intro st st' h
    simpa [attemptAnalyse, attemptWritesF, exhausts, attemptCount] using
      attemptFloor_ok_spec isDev b e 1 st st' h
  | more m _ ih =>
    intro st st' h
    rw [attemptAnalyse] at h
    cases hext : (b (m + 2)).ext <;>
      simp only [hext, exhausts, attemptCount, attemptWritesF, shouldRetryAttempt] at h ⊢
    case retNone =>
      cases h
      simp
    case retElem ne =>
      by_cases hw : (b (m + 2)).writeOk <;> simp only [hw, if_true, if_false,
        Bool.not_true, Bool.not_false, Bool.false_and, Bool.true_and,
        Bool.or_false] at h ⊢
      · cases h
        simp
      · obtain ⟨h1, h2, h3, h4, h5, h6, h7, ⟨L, h8⟩, h9⟩ := ih _ _ h
        simp only [errorLog] at h1 h2 h3 h4 h5 h6 h7 h8 h9
        refine ⟨by simpa using h1, by simpa using h2, ?_, by simpa using h4,
          by simpa using h5, by simpa using h6, by simpa using h7,
          ⟨("Unsuccessful storage", e) :: L, by simpa using h8⟩, h9⟩
        rw [h3]
        simp [List.replicate_add, List.replicate_one]
    case raiseSkip msg =>
      cases h
      exact ⟨by simp [errorLog], by simp [errorLog], by simp [errorLog],
        by simp [errorLog], by simp [errorLog], by simp [errorLog],
        by simp [errorLog], ⟨[(msg, e)], by simp [errorLog]⟩, by simp⟩
    case raiseRetry msg =>
      simp only [Bool.true_and] at h ⊢
      obtain ⟨h1, h2, h3, h4, h5, h6, h7, ⟨L, h8⟩, h9⟩ := ih _ _ h
      simp only [errorLog] at h1 h2 h3 h4 h5 h6 h7 h8 h9
      refine ⟨by simpa using h1, by simpa using h2, ?_, by simpa using h4,
        by simpa using h5, by simpa using h6, by simpa using h7,
        ⟨(msg, e) :: L, by simpa using h8⟩, h9⟩
      rw [h3]
      simp [List.replicate_add, List.replicate_one]
    case raiseOther msg =>
      by_cases hd : isDev <;> simp only [hd, if_true, if_false] at h
      · cases h
      · cases h
        exact ⟨by simp [errorLog], by simp [errorLog], by simp [errorLog],
          by simp [errorLog], by simp [errorLog], by simp [errorLog],
          by simp [errorLog], ⟨[(msg ++ ": skipping element", e)], by simp [errorLog]⟩,
          by simp⟩

/-- Outside dev mode a non-recursing attempt never propagates an
exception. -/
lemma attemptFloor_nodev_ok (b : Nat → AttemptBehavior) (e : Elem) (n : Nat)
    (st : RunState) : ∃ st', attemptFloor false b e n st = Except.ok st' := by
  unfold attemptFloor
  cases hext : (b n).ext <;> simp only [hext]
  case retElem ne =>
    by_cases hw : (b n).writeOk <;> simp only [hw, if_true, if_false] <;>
      exact ⟨_, rfl⟩
  all_goals exact ⟨_, rfl⟩

/-- Outside dev mode `__attempt_analyse` never propagates an exception:
every element's processing returns normally. -/
lemma attempt_nodev_ok (b : Nat → AttemptBehavior) (e : Elem) :
    ∀ (n : Nat) (st : RunState), ∃ st', attemptAnalyse false b e n st = Except.ok st' := by
  intro n
  induction n using Nat.twoStepInduction with
  | zero => intro st; exact attemptFloor_nodev_ok b e 0 st
  | one => intro st; exact attemptFloor_nodev_ok b e 1 st
  | more m _ ih =>
    intro st
    rw [attemptAnalyse]
    cases hext : (b (m + 2)).ext <;> simp only [hext]
    case retElem ne =>
      by_cases hw : (b (m + 2)).writeOk <;> simp only [hw, if_true, if_false]
      · exact ⟨_, rfl⟩
      · exact ih _
    case raiseRetry msg => exact ih _
    all_goals exact ⟨_, rfl⟩

/-- Every write of an attempt chain goes to the destination query in
force, with the `delete_local_on_write` value in force. -/
lemma attemptWritesBase_mem (b : Nat → AttemptBehavior) (dq : String) (d0 : Bool)
    (n : Nat) : ∀ w ∈ attemptWritesBase b dq d0 n, w.dest = dq ∧ w.delLocal = d0 := by
  intro w hw
  unfold attemptWritesBase at hw
  revert hw
  cases hext : (b n).ext <;> simp
  case retElem ne =>
    by_cases hwk : (b n).writeOk <;> simp [hwk]
    rintro rfl
    exact ⟨rfl, rfl⟩

lemma attemptWritesF_mem (b : Nat → AttemptBehavior) (dq : String) (d0 : Bool) :
    ∀ (n : Nat), ∀ w ∈ attemptWritesF b dq d0 n, w.dest = dq ∧ w.delLocal = d0 := by
  intro n
  induction n using Nat.twoStepInduction with
  | zero => exact fun w hw => attemptWritesBase_mem b dq d0 0 w hw
  | one => exact fun w hw => attemptWritesBase_mem b dq d0 1 w hw
  | more m _ ih =>
    intro w hw
    rw [attemptWritesF] at hw
    revert hw
    cases hext : (b (m + 2)).ext <;> simp
    case retElem ne =>
      by_cases hwk : (b (m + 2)).writeOk <;> simp [hwk]
      · rintro rfl
        exact ⟨rfl, rfl⟩
      · exact ih w
    case raiseRetry msg => exact ih w

/-- The user-visible outputs of an attempt chain do not depend on the
`delete_local_on_write` value in force. -/
lemma attemptWritesF_proj (b : Nat → AttemptBehavior) (dq : String) (d0 d1 : Bool) :
    ∀ (n : Nat),
      (attemptWritesF b dq d0 n).map projW = (attemptWritesF b dq d1 n).map projW := by
  intro n
  induction n using Nat.twoStepInduction with
  | zero =>
    unfold attemptWritesF attemptWritesBase
    cases hext : (b 0).ext <;> simp [projW]
    by_cases hwk : (b 0).writeOk <;> simp [hwk, projW]
  | one =>
    unfold attemptWritesF attemptWritesBase
    cases hext : (b 1).ext <;> simp [projW]
    by_cases hwk : (b 1).writeOk <;> simp [hwk, projW]
  | more m _ ih =>
    rw [attemptWritesF, attemptWritesF]
    cases hext : (b (m + 2)).ext <;> simp [projW]
    case retElem ne =>
      by_cases hwk : (b (m + 2)).writeOk <;> simp [hwk, projW]
      exact ih
    case raiseRetry msg => exact ih

/-- Every write of a batch whose incoming `delete_local_on_write` value
is `false` carries the flag `false`. -/
lemma batchWritesF_false (name : String) (beh : Elem → Nat → AttemptBehavior) :
    ∀ (es : List Elem), ∀ w ∈ batchWritesF name beh false es, w.delLocal = false := by
  intro es
  induction es with
  | nil => intro w hw; simp [batchWritesF] at hw
  | cons e rest ih =>
    intro w hw
    rw [batchWritesF] at hw
    rcases List.mem_append.mp hw with h | h
    · exact (attemptWritesF_mem (beh e) (destOf name e) false 5 w h).2
    · exact ih w h

/-- Every write of a batch goes to the per-element destination
`destOf name e` of some element `e` of the batch. -/
lemma batchWritesF_dest (name : String) (beh : Elem → Nat → AttemptBehavior) :
    ∀ (d0 : Bool) (es : List Elem), ∀ w ∈ batchWritesF name beh d0 es,
      ∃ e, e ∈ es ∧ w.dest = destOf name e := by
  intro d0 es
  induction es generalizing d0 with
  | nil => intro w hw; simp [batchWritesF] at hw
  | cons e rest ih =>
    intro w hw
    rw [batchWritesF] at hw
    rcases List.mem_append.mp hw with h | h
    · exact ⟨e, List.mem_cons_self e rest,
        (attemptWritesF_mem (beh e) (destOf name e) d0 5 w h).1⟩
    · obtain ⟨e', he', hd⟩ := ih false w h
      exact ⟨e', List.mem_cons_of_mem e he', hd⟩

/-- The user-visible outputs of a batch are the concatenation of the
per-element outputs, independently of the `delete_local_on_write`
threading. -/
lemma batchWritesF_proj (name : String) (beh : Elem → Nat → AttemptBehavior) :
    ∀ (d0 : Bool) (es : List Elem),
      (batchWritesF name beh d0 es).map projW = es.flatMap (elemOutputs name beh) := by
  intro d0 es
  induction es generalizing d0 with
  | nil => simp [batchWritesF]
  | cons e rest ih =>
    rw [batchWritesF]
    simp only [List.map_append, List.flatMap_cons, ih false]
    rw [elemOutputs, attemptWritesF_proj (beh e) (destOf name e) d0 true 5]

/-- Master characterization of the `analyse` loop when it returns
normally. -/
lemma analyse_ok_spec (isDev : Bool) (name : String)
    (beh : Elem → Nat → AttemptBehavior) :
    ∀ (es : List Elem) (st st' : RunState),
      analyse isDev name beh es st = Except.ok st' →
      st'.written = st.written ++ batchWritesF name beh st.deleteLocalOnWrite es ∧
      st'.errored = (st.errored || es.any fun e => exhausts (beh e) 5) ∧
      st'.destSets = st.destSets ++ es.map (destOf name) ∧
      st'.metaWrites = st.metaWrites ∧
      st'.deleteLocalOnWrite = (if es.isEmpty then st.deleteLocalOnWrite else false) ∧
      st'.attemptLog =
        st.attemptLog ++ es.flatMap (fun e => List.replicate (attemptCount (beh e) 5) e) ∧
      (∃ L, st'.errLogs = st.errLogs ++ L) := by
  intro es
  induction es with
  | nil =>
    intro st st' h
    rw [analyse] at h
    cases h
    simp [batchWritesF]
  | cons e rest ih =>
    intro st st' h
    rw [analyse] at h
    cases hA : attemptAnalyse isDev (beh e) e 5 (setDestQ st (destOf name e)) with
    | error x => rw [hA] at h; cases h
    | ok st2 =>
      rw [hA] at h
      obtain ⟨a1, a2, a3, a4, a5, a6, a7, ⟨L1, a8⟩, -⟩ :=
        attempt_ok_spec isDev (beh e) e 5 (setDestQ st (destOf name e)) st2 hA
      simp only [setDestQ] at a1 a2 a3 a4 a5 a6 a7 a8
      obtain ⟨b1, b2, b3, b4, b5, b6, ⟨L2, b7⟩⟩ := ih _ _ h
      simp only [a1, a2, a3, a4, a5, a6, a7, a8] at b1 b2 b3 b4 b5 b6 b7
      refine ⟨?_, ?_, ?_, b4, ?_, ?_, ⟨L1 ++ L2, by rw [b7]; simp⟩⟩
      · rw [b1, batchWritesF]
        simp
      · rw [b2, List.any_cons, Bool.or_assoc]
      · rw [b3]
        simp
      · rw [b5]
        simp [List.isEmpty_cons]
      · rw [b6, List.flatMap_cons]
        simp

/-- Outside dev mode the `analyse` loop never aborts: the dispatcher
returns only after all elements have been attempted. -/
lemma analyse_nodev_ok (name : String) (beh : Elem → Nat → AttemptBehavior) :
    ∀ (es : List Elem) (st : RunState),
      ∃ st', analyse false name beh es st = Except.ok st' := by
  intro es
  induction es with
  | nil => intro st; exact ⟨st, rfl⟩
  | cons e rest ih =>
    intro st
    obtain ⟨st2, hA⟩ := attempt_nodev_ok (beh e) e 5 (setDestQ st (destOf name e))
    obtain ⟨st', hR⟩ := ih { st2 with deleteLocalOnWrite := false }
    exact ⟨st', by rw [analyse, hA]; exact hR⟩

/-- After a completed `analyse` batch the `dest_q` cell holds the
destination assigned for the last element of the batch (or its incoming
value for an empty batch): exactly the value `__post_analyse` then reads
through `get_dest_q`. -/
lemma analyse_destQ (isDev : Bool) (name : String)
    (beh : Elem → Nat → AttemptBehavior) :
    ∀ (es : List Elem) (st st' : RunState),
      analyse isDev name beh es st = Except.ok st' →
      st'.destQ = (es.map (destOf name)).getLastD st.destQ := by
  intro es
  induction es with
  | nil =>
    intro st st' h
    rw [analyse] at h
    cases h
    simp
  | cons e rest ih =>
    intro st st' h
    rw [analyse] at h
    cases hA : attemptAnalyse isDev (beh e) e 5 (setDestQ st (destOf name e)) with
    | error x => rw [hA] at h; cases h
    | ok st2 =>
      rw [hA] at h
      obtain ⟨-, -, -, a4, -, -, -, -, -⟩ :=
        attempt_ok_spec isDev (beh e) e 5 (setDestQ st (destOf name e)) st2 hA
      have hb : ({ st2 with deleteLocalOnWrite := false } : RunState).destQ =
          destOf name e := by
        rw [show ({ st2 with deleteLocalOnWrite := false } : RunState).destQ =
          st2.destQ from rfl, a4]
        rfl
      rw [List.map_cons, List.getLastD_cons, ih _ _ h, hb]

/-! Lemmas about behaviours that take the should-retry path on every
attempt. -/

lemma allretry_exhausts (b : Nat → AttemptBehavior)
    (hb : ∀ n, shouldRetryAttempt (b n) = true) : ∀ n, exhausts b n = true := by
  intro n
  induction n using Nat.twoStepInduction with
  | zero => rw [exhausts]; exact hb 0
  | one => rw [exhausts]; exact hb 1
  | more m _ ih => rw [exhausts]; rw [hb (m + 2), ih]; rfl

lemma allretry_count (b : Nat → AttemptBehavior)
    (hb : ∀ n, shouldRetryAttempt (b n) = true) :
    ∀ n, 1 ≤ n → attemptCount b n = n := by
  intro n
  induction n using Nat.twoStepInduction with
  | zero => omega
  | one => intro _; rfl
  | more m _ ih =>
    intro _
    rw [attemptCount]
    rw [hb (m + 2)]
    simp only [if_true]
    rw [ih (by omega)]
    omega

lemma allretry_base (b : Nat → AttemptBehavior) (dq : String) (d0 : Bool)
    (hb : ∀ n, shouldRetryAttempt (b n) = true) (n : Nat) :
    attemptWritesBase b dq d0 n = [] := by
  have h := hb n
  rw [shouldRetryAttempt] at h
  unfold attemptWritesBase
  cases hext : (b n).ext
  case retElem ne =>
    rw [hext] at h
    simp at h
    simp [h]
  all_goals rw [hext] at h

lemma allretry_writes (b : Nat → AttemptBehavior) (dq : String) (d0 : Bool)
    (hb : ∀ n, shouldRetryAttempt (b n) = true) :
    ∀ n, attemptWritesF b dq d0 n = [] := by
  intro n
  induction n using Nat.twoStepInduction with
  | zero => rw [attemptWritesF]; exact allretry_base b dq d0 hb 0
  | one => rw [attemptWritesF]; exact allretry_base b dq d0 hb 1
  | more m _ ih =>
    have h := hb (m + 2)
    rw [shouldRetryAttempt] at h
    rw [attemptWritesF]
    cases hext : (b (m + 2)).ext <;> rw [hext] at h <;> simp at h ⊢
    · simp [h, ih]
    · exact ih

lemma allretry_ok (isDev : Bool) (b : Nat → AttemptBehavior) (e : Elem)
    (hb : ∀ n, shouldRetryAttempt (b n) = true) :
    ∀ n st, ∃ st', attemptAnalyse isDev b e n st = Except.ok st' := by
  have floor : ∀ n st, ∃ st', attemptFloor isDev b e n st = Except.ok st' := by
    intro n st
    have h := hb n
    rw [shouldRetryAttempt] at h
    unfold attemptFloor
    cases hext : (b n).ext <;> rw [hext] at h <;> simp at h
    · simp [h]
    · exact ⟨_, rfl⟩
  intro n
  induction n using Nat.twoStepInduction with
  | zero => intro st; exact floor 0 st
  | one => intro st; exact floor 1 st
  | more m _ ih =>
    intro st
    have h := hb (m + 2)
    rw [shouldRetryAttempt] at h
    rw [attemptAnalyse]
    cases hext : (b (m + 2)).ext <;> rw [hext] at h <;> simp at h
    · simp only [h, Bool.false_eq_true, if_false]
      exact ih _
    · exact ih _

/-- C1: an element whose extension point raises should-retry, or whose
`write_element` returns `False`, on every attempt, is attempted exactly 5
times, never has an output element persisted, has the exhausted-retries
error logged, sets the run's `errored` flag to `true`, and the loop
continues with the next element instead of aborting the run. -/
theorem c1_retry_exhaustion (isDev : Bool) (name : String)
    (beh : Elem → Nat → AttemptBehavior) (e : Elem) (rest : List Elem)
    (st : RunState) (hb : ∀ n, shouldRetryAttempt (beh e n) = true) :
    ∃ st1, attemptAnalyse isDev (beh e) e 5 (setDestQ st (destOf name e)) = Except.ok st1 ∧
      st1.written = st.written ∧
      st1.errored = true ∧
      st1.attemptLog = st.attemptLog ++ List.replicate 5 e ∧
      (exhaustMsg, e) ∈ st1.errLogs ∧
      analyse isDev name beh (e :: rest) st =
        analyse isDev name beh rest { st1 with deleteLocalOnWrite := false } := by
  obtain ⟨st1, hA⟩ := allretry_ok isDev (beh e) e hb 5 (setDestQ st (destOf name e))
  obtain ⟨a1, a2, a3, -, -, -, -, -, a9⟩ :=
    attempt_ok_spec isDev (beh e) e 5 (setDestQ st (destOf name e)) st1 hA
  have hex := allretry_exhausts (beh e) hb 5
  refine ⟨st1, hA, ?_, ?_, ?_, a9 hex, ?_⟩
  · rw [a1, allretry_writes (beh e) _ _ hb 5]
    simp [setDestQ]
  · rw [a2, hex]
    simp [setDestQ]
  · rw [a3, allretry_count (beh e) hb 5 (by omega)]
    simp [setDestQ]
  · rw [analyse, hA]

/-- Closed instance of `c1_retry_exhaustion`: a concrete element whose
extension point always raises should-retry, in a batch with one healthy
successor element. -/
theorem c1_retry_exhaustion_witness :
    (∀ n, shouldRetryAttempt
      ((fun (_ : Elem) (_ : Nat) => AttemptBehavior.mk (ExtOutcome.raiseRetry "fail") true)
        ⟨["sa"], 1⟩ n) = true) ∧
    (∃ st1, attemptAnalyse false ((fun (_ : Elem) (_ : Nat) =>
        AttemptBehavior.mk (ExtOutcome.raiseRetry "fail") true) ⟨["sa"], 1⟩)
        ⟨["sa"], 1⟩ 5
        (setDestQ (initState true) (destOf "an" ⟨["sa"], 1⟩)) = Except.ok st1 ∧
      st1.written = (initState true).written ∧
      st1.errored = true ∧
      st1.attemptLog = (initState true).attemptLog ++ List.replicate 5 ⟨["sa"], 1⟩ ∧
      (exhaustMsg, ⟨["sa"], 1⟩) ∈ st1.errLogs ∧
      analyse false "an"
          (fun (_ : Elem) (_ : Nat) => AttemptBehavior.mk (ExtOutcome.raiseRetry "fail") true)
          (⟨["sa"], 1⟩ :: [⟨["sb"], 2⟩]) (initState true) =
        analyse false "an"
          (fun (_ : Elem) (_ : Nat) => AttemptBehavior.mk (ExtOutcome.raiseRetry "fail") true)
          [⟨["sb"], 2⟩] { st1 with deleteLocalOnWrite := false }) :=
  ⟨fun _ => rfl,
    c1_retry_exhaustion false "an"
      (fun _ _ => AttemptBehavior.mk (ExtOutcome.raiseRetry "fail") true)
      ⟨["sa"], 1⟩ [⟨["sb"], 2⟩] (initState true) (fun _ => rfl)⟩

/-- A should-skip raise ends the attempt chain immediately: one log
record, no recursion, whatever the `attempts` counter. -/
lemma attempt_skip (isDev : Bool) (b : Nat → AttemptBehavior) (e : Elem)
    (n : Nat) (st : RunState) (msg : String)
    (hext : (b n).ext = ExtOutcome.raiseSkip msg) :
    attemptAnalyse isDev b e n st =
      Except.ok (errorLog { st with attemptLog := st.attemptLog ++ [e] } msg e) := by
  match n with
  | 0 => rw [attemptAnalyse, attemptFloor, hext]
  | 1 => rw [attemptAnalyse, attemptFloor, hext]
  | m + 2 => rw [attemptAnalyse, hext]

/-- C5: an element whose extension point raises should-skip is logged and
terminally skipped on that attempt: exactly one invocation from that
point (never retried), no output element written, the run's `errored`
flag untouched, and — when this is the first attempt — the loop continues
with the next element. -/
theorem c5_skip_terminal (isDev : Bool) (name : String)
    (beh : Elem → Nat → AttemptBehavior) (e : Elem) (rest : List Elem)
    (st : RunState) (msg : String) (n : Nat)
    (hext : (beh e n).ext = ExtOutcome.raiseSkip msg) :
    ∃ st1, attemptAnalyse isDev (beh e) e n (setDestQ st (destOf name e)) = Except.ok st1 ∧
      st1.written = st.written ∧
      st1.errored = st.errored ∧
      st1.attemptLog = st.attemptLog ++ [e] ∧
      (msg, e) ∈ st1.errLogs ∧
      (n = 5 →
        analyse isDev name beh (e :: rest) st =
          analyse isDev name beh rest { st1 with deleteLocalOnWrite := false }) := by
  have hA := attempt_skip isDev (beh e) e n (setDestQ st (destOf name e)) msg hext
  refine ⟨_, hA, by simp [errorLog, setDestQ], by simp [errorLog, setDestQ],
    by simp [errorLog, setDestQ], by simp [errorLog, setDestQ], ?_⟩
  rintro rfl
  rw [analyse, hA]

/-- Closed instance of `c5_skip_terminal`: a concrete element whose
extension point raises should-skip on the first attempt, followed by a
healthy element. -/
theorem c5_skip_terminal_witness :
    ((fun (_ : Elem) (_ : Nat) => AttemptBehavior.mk (ExtOutcome.raiseSkip "dup") true)
        ⟨["sa"], 1⟩ 5).ext = ExtOutcome.raiseSkip "dup" ∧
    (∃ st1, attemptAnalyse false ((fun (_ : Elem) (_ : Nat) =>
        AttemptBehavior.mk (ExtOutcome.raiseSkip "dup") true) ⟨["sa"], 1⟩)
        ⟨["sa"], 1⟩ 5
        (setDestQ (initState true) (destOf "an" ⟨["sa"], 1⟩)) = Except.ok st1 ∧
      st1.written = (initState true).written ∧
      st1.errored = (initState true).errored ∧
      st1.attemptLog = (initState true).attemptLog ++ [⟨["sa"], 1⟩] ∧
      ("dup", (⟨["sa"], 1⟩ : Elem)) ∈ st1.errLogs ∧
      ((5 : Nat) = 5 →
        analyse false "an"
            (fun (_ : Elem) (_ : Nat) => AttemptBehavior.mk (ExtOutcome.raiseSkip "dup") true)
            (⟨["sa"], 1⟩ :: [⟨["sb"], 2⟩]) (initState true) =
          analyse false "an"
            (fun (_ : Elem) (_ : Nat) => AttemptBehavior.mk (ExtOutcome.raiseSkip "dup") true)
            [⟨["sb"], 2⟩] { st1 with deleteLocalOnWrite := false })) :=
  ⟨rfl,
    c5_skip_terminal false "an"
      (fun _ _ => AttemptBehavior.mk (ExtOutcome.raiseSkip "dup") true)
      ⟨["sa"], 1⟩ [⟨["sb"], 2⟩] (initState true) "dup" 5 rfl⟩

/-- An attempt chain that raises should-retry down to counter value `m`
and then returns an element whose write succeeds, writes exactly that one
element and leaves `errored` untouched. -/
lemma retry_then_success (isDev : Bool) (b : Nat → AttemptBehavior) (e : Elem)
    (m : Nat) (ne : Elem) (hm : 1 ≤ m)
    (hS : (b m).ext = ExtOutcome.retElem ne) (hW : (b m).writeOk = true) :
    ∀ n, m ≤ n → (∀ i, m < i → i ≤ n → ∃ r, (b i).ext = ExtOutcome.raiseRetry r) →
      ∀ st, ∃ st', attemptAnalyse isDev b e n st = Except.ok st' ∧
        st'.written = st.written ++ [⟨st.destQ, ne, st.deleteLocalOnWrite⟩] ∧
        st'.errored = st.errored ∧
        st'.destQ = st.destQ ∧
        st'.deleteLocalOnWrite = st.deleteLocalOnWrite := by
  intro n
  induction n using Nat.twoStepInduction with
  | zero => omega
  | one =>
    intro hmn _ st
    have hm1 : m = 1 := by omega
    subst hm1
    rw [attemptAnalyse, attemptFloor, hS]
    simp only [hW, if_true]
    exact ⟨_, rfl, rfl, rfl, rfl, rfl⟩
  | more k _ ih =>
    intro hmn hr st
    by_cases heq : m = k + 2
    · subst heq
      rw [attemptAnalyse, hS]
      simp only [hW, if_true]
      exact ⟨_, rfl, rfl, rfl, rfl, rfl⟩
    · obtain ⟨r, hrr⟩ := hr (k + 2) (by omega) (le_refl _)
      rw [attemptAnalyse, hrr]
      obtain ⟨st', h1, h2, h3, h4, h5⟩ :=
        ih (by omega) (fun i hi1 hi2 => hr i hi1 (by omega))
          (errorLog { st with attemptLog := st.attemptLog ++ [e] } r e)
      exact ⟨st', h1, by simpa [errorLog] using h2, by simpa [errorLog] using h3,
        by simpa [errorLog] using h4, by simpa [errorLog] using h5⟩

/-- C6: an element whose extension point raises should-retry on exactly
`k < 5` attempts and then returns a new element that `write_element`
persists successfully has exactly one output element written for it, and
the run's `errored` flag is untouched (in particular it remains `false`). -/
theorem c6_retry_then_success (isDev : Bool) (name : String)
    (beh : Elem → Nat → AttemptBehavior) (e : Elem) (rest : List Elem)
    (st : RunState) (k : Nat) (ne : Elem) (hk : k < 5)
    (hr : ∀ i, 5 - k < i → i ≤ 5 → ∃ r, (beh e i).ext = ExtOutcome.raiseRetry r)
    (hS : (beh e (5 - k)).ext = ExtOutcome.retElem ne)
    (hW : (beh e (5 - k)).writeOk = true) :
    ∃ st1, attemptAnalyse isDev (beh e) e 5 (setDestQ st (destOf name e)) = Except.ok st1 ∧
      st1.written = st.written ++ [⟨destOf name e, ne, st.deleteLocalOnWrite⟩] ∧
      st1.errored = st.errored ∧
      analyse isDev name beh (e :: rest) st =
        analyse isDev name beh rest { st1 with deleteLocalOnWrite := false } := by
  obtain ⟨st1, h1, h2, h3, -, -⟩ :=
    retry_then_success isDev (beh e) e (5 - k) ne (by omega) hS hW 5 (by omega) hr
      (setDestQ st (destOf name e))
  refine ⟨st1, h1, ?_, by simpa [setDestQ] using h3, ?_⟩
  · rw [h2]
    simp [setDestQ]
  · rw [analyse, h1]

/-- Closed instance of `c6_retry_then_success`: one should-retry raise,
then a successfully written result. -/
theorem c6_retry_then_success_witness :
    (1 : Nat) < 5 ∧
    (∀ i, 5 - 1 < i → i ≤ 5 → ∃ r,
      ((fun (_ : Elem) (n : Nat) =>
          if n = 5 then AttemptBehavior.mk (ExtOutcome.raiseRetry "flaky") true
          else AttemptBehavior.mk (ExtOutcome.retElem ⟨["sa", "an"], 10⟩) true)
        ⟨["sa"], 1⟩ i).ext = ExtOutcome.raiseRetry r) ∧
    (∃ st1, attemptAnalyse false
        ((fun (_ : Elem) (n : Nat) =>
          if n = 5 then AttemptBehavior.mk (ExtOutcome.raiseRetry "flaky") true
          else AttemptBehavior.mk (ExtOutcome.retElem ⟨["sa", "an"], 10⟩) true)
          ⟨["sa"], 1⟩)
        ⟨["sa"], 1⟩ 5 (setDestQ (initState true) (destOf "an" ⟨["sa"], 1⟩)) =
          Except.ok st1 ∧
      st1.written = (initState true).written ++
        [⟨destOf "an" ⟨["sa"], 1⟩, ⟨["sa", "an"], 10⟩, (initState true).deleteLocalOnWrite⟩] ∧
      st1.errored = (initState true).errored ∧
      analyse false "an"
          (fun (_ : Elem) (n : Nat) =>
            if n = 5 then AttemptBehavior.mk (ExtOutcome.raiseRetry "flaky") true
            else AttemptBehavior.mk (ExtOutcome.retElem ⟨["sa", "an"], 10⟩) true)
          (⟨["sa"], 1⟩ :: []) (initState true) =
        analyse false "an"
          (fun (_ : Elem) (n : Nat) =>
            if n = 5 then AttemptBehavior.mk (ExtOutcome.raiseRetry "flaky") true
            else AttemptBehavior.mk (ExtOutcome.retElem ⟨["sa", "an"], 10⟩) true)
          [] { st1 with deleteLocalOnWrite := false }) :=
  ⟨by omega,
    fun i h1 h2 => by
      have : i = 5 := by omega
      subst this
      exact ⟨"flaky", rfl⟩,
    c6_retry_then_success false "an"
      (fun _ n =>
        if n = 5 then AttemptBehavior.mk (ExtOutcome.raiseRetry "flaky") true
        else AttemptBehavior.mk (ExtOutcome.retElem ⟨["sa", "an"], 10⟩) true)
      ⟨["sa"], 1⟩ [] (initState true) 1 ⟨["sa", "an"], 10⟩ (by omega)
      (fun i h1 h2 => by
        have : i = 5 := by omega
        subst this
        exact ⟨"flaky", rfl⟩)
      rfl rfl⟩

/-- An unclassified raise in dev mode propagates from the attempt
immediately, carrying the state at the raise. -/
lemma attempt_other_dev (b : Nat → AttemptBehavior) (e : Elem) (n : Nat)
    (st : RunState) (msg : String)
    (hext : (b n).ext = ExtOutcome.raiseOther msg) :
    attemptAnalyse true b e n st =
      Except.error (msg, { st with attemptLog := st.attemptLog ++ [e] }) := by
  match n with
  | 0 => rw [attemptAnalyse, attemptFloor, hext]; rfl
  | 1 => rw [attemptAnalyse, attemptFloor, hext]; rfl
  | m + 2 => rw [attemptAnalyse, hext]; rfl

/-- An unclassified raise outside dev mode is logged with the element and
ends the attempt chain normally. -/
lemma attempt_other_nodev (b : Nat → AttemptBehavior) (e : Elem) (n : Nat)
    (st : RunState) (msg : String)
    (hext : (b n).ext = ExtOutcome.raiseOther msg) :
    attemptAnalyse false b e n st =
      Except.ok (errorLog { st with attemptLog := st.attemptLog ++ [e] }
        (msg ++ ": skipping element") e) := by
  match n with
  | 0 => rw [attemptAnalyse, attemptFloor, hext]; rfl
  | 1 => rw [attemptAnalyse, attemptFloor, hext]; rfl
  | m + 2 => rw [attemptAnalyse, hext]; rfl

/-- C8: an element whose extension point raises an exception that is
neither should-skip nor should-retry aborts the whole run immediately in
dev mode (the exception propagates through `analyse` and
`start_analysing`, so no completion metadata is written); outside dev
mode it is logged, nothing is written for the element, the `errored`
flag is untouched, the element is not retried, and the loop continues
with the next element. -/
theorem c8_unclassified (name : String) (qs : List (List String))
    (sched : List Elem) (beh : Elem → Nat → AttemptBehavior) (e : Elem)
    (rest : List Elem) (st st0 : RunState) (msg : String)
    (hext : (beh e 5).ext = ExtOutcome.raiseOther msg) :
    (∃ stE, analyse true name beh (e :: rest) st = Except.error (msg, stE) ∧
      stE.written = st.written ∧ stE.errored = st.errored) ∧
    (∃ stE, startAnalysing true false name qs (Except.ok (e :: rest)) sched beh st0 =
        Except.error (msg, stE) ∧
      stE.written = st0.written ∧ stE.metaWrites = st0.metaWrites) ∧
    (∃ st1, attemptAnalyse false (beh e) e 5 (setDestQ st (destOf name e)) = Except.ok st1 ∧
      st1.written = st.written ∧
      st1.errored = st.errored ∧
      st1.attemptLog = st.attemptLog ++ [e] ∧
      (msg ++ ": skipping element", e) ∈ st1.errLogs ∧
      analyse false name beh (e :: rest) st =
        analyse false name beh rest { st1 with deleteLocalOnWrite := false }) := by
  have habort : ∀ s : RunState, analyse true name beh (e :: rest) s =
      Except.error (msg, { setDestQ s (destOf name e) with
        attemptLog := s.attemptLog ++ [e] }) := by
    intro s
    rw [analyse, attempt_other_dev (beh e) e 5 (setDestQ s (destOf name e)) msg hext]
    rfl
  refine ⟨⟨_, habort st, rfl, rfl⟩, ?_, ?_⟩
  · refine ⟨{ setDestQ st0 (destOf name e) with
        attemptLog := st0.attemptLog ++ [e] }, ?_, rfl, rfl⟩
    rw [startAnalysing]
    simp only [List.length_cons, Nat.succ_ne_zero, if_false, Bool.false_eq_true]
    rw [habort st0]
  · have hA := attempt_other_nodev (beh e) e 5 (setDestQ st (destOf name e)) msg hext
    refine ⟨_, hA, by simp [errorLog, setDestQ], by simp [errorLog, setDestQ],
      by simp [errorLog, setDestQ], by simp [errorLog, setDestQ], ?_⟩
    rw [analyse, hA]

/-- Closed instance of `c8_unclassified`: a concrete element whose
extension point raises a `ValueError`-like unclassified exception. -/
theorem c8_unclassified_witness :
    ((fun (_ : Elem) (_ : Nat) => AttemptBehavior.mk (ExtOutcome.raiseOther "boom") true)
        ⟨["sa"], 1⟩ 5).ext = ExtOutcome.raiseOther "boom" ∧
    ((∃ stE, analyse true "an"
          (fun (_ : Elem) (_ : Nat) => AttemptBehavior.mk (ExtOutcome.raiseOther "boom") true)
          (⟨["sa"], 1⟩ :: [⟨["sb"], 2⟩]) (initState true) = Except.error ("boom", stE) ∧
        stE.written = (initState true).written ∧ stE.errored = (initState true).errored) ∧
      (∃ stE, startAnalysing true false "an" [["sa"]]
          (Except.ok (⟨["sa"], 1⟩ :: [⟨["sb"], 2⟩])) []
          (fun (_ : Elem) (_ : Nat) => AttemptBehavior.mk (ExtOutcome.raiseOther "boom") true)
          (initState true) = Except.error ("boom", stE) ∧
        stE.written = (initState true).written ∧
        stE.metaWrites = (initState true).metaWrites) ∧
      (∃ st1, attemptAnalyse false ((fun (_ : Elem) (_ : Nat) =>
            AttemptBehavior.mk (ExtOutcome.raiseOther "boom") true) ⟨["sa"], 1⟩)
          ⟨["sa"], 1⟩ 5 (setDestQ (initState true) (destOf "an" ⟨["sa"], 1⟩)) =
            Except.ok st1 ∧
        st1.written = (initState true).written ∧
        st1.errored = (initState true).errored ∧
        st1.attemptLog = (initState true).attemptLog ++ [⟨["sa"], 1⟩] ∧
        ("boom" ++ ": skipping element", (⟨["sa"], 1⟩ : Elem)) ∈ st1.errLogs ∧
        analyse false "an"
            (fun (_ : Elem) (_ : Nat) => AttemptBehavior.mk (ExtOutcome.raiseOther "boom") true)
            (⟨["sa"], 1⟩ :: [⟨["sb"], 2⟩]) (initState true) =
          analyse false "an"
            (fun (_ : Elem) (_ : Nat) => AttemptBehavior.mk (ExtOutcome.raiseOther "boom") true)
            [⟨["sb"], 2⟩] { st1 with deleteLocalOnWrite := false })) :=
  ⟨rfl,
    c8_unclassified "an" [["sa"]] []
      (fun _ _ => AttemptBehavior.mk (ExtOutcome.raiseOther "boom") true)
      ⟨["sa"], 1⟩ [⟨["sb"], 2⟩] (initState true) (initState true) "boom" rfl⟩

/-- C7: if reading the configured input queries fails, or yields zero
elements, the run raises `InvalidAnalyserElements` before any element is
dispatched: the error state is the untouched entry state, so no attempt
was made, nothing was written, and no completion metadata record exists. -/
theorem c7_fatal_input (isDev inParallel : Bool) (name : String)
    (qs : List (List String)) (sched : List Elem)
    (beh : Elem → Nat → AttemptBehavior) (d0 : Bool)
    (readResult : Except Unit (List Elem))
    (h : readResult = Except.error () ∨ readResult = Except.ok []) :
    ∃ msg, startAnalysing isDev inParallel name qs readResult sched beh (initState d0) =
        Except.error (msg, initState d0) ∧
      (initState d0).attemptLog = [] ∧
      (initState d0).written = [] ∧
      (initState d0).metaWrites = [] := by
  rcases h with h | h <;> subst h
  · exact ⟨_, rfl, rfl, rfl, rfl⟩
  · exact ⟨_, rfl, rfl, rfl, rfl⟩

/-- Closed instance of `c7_fatal_input`: an unreadable storage location. -/
theorem c7_fatal_input_witness :
    ((Except.error () : Except Unit (List Elem)) = Except.error () ∨
      (Except.error () : Except Unit (List Elem)) = Except.ok []) ∧
    (∃ msg, startAnalysing false false "an" [["sa"]] (Except.error ()) []
        (fun (_ : Elem) (_ : Nat) => AttemptBehavior.mk ExtOutcome.retNone true)
        (initState true) = Except.error (msg, initState true) ∧
      (initState true).attemptLog = [] ∧
      (initState true).written = [] ∧
      (initState true).metaWrites = []) :=
  ⟨Or.inl rfl,
    c7_fatal_input false false "an" [["sa"]] []
      (fun _ _ => AttemptBehavior.mk ExtOutcome.retNone true) true
      (Except.error ()) (Or.inl rfl)⟩

/-- C2 counterexample: a production run in which element 1 exhausted its
retries and element 2 was analysed and written successfully.  The run
completes and its successful output is non-empty, yet `errored` is `true`
and NO completion metadata record is written — refuting the claim that a
run with a `Failed` element still writes metadata, and that the `errored`
flag suppresses the metadata write only for genuinely empty successful
output. -/
theorem c2_counterexample :
    isOkRun c2run = true ∧
    (exhaustMsg, (⟨["s"], 1⟩ : Elem)) ∈ (okayState c2run).errLogs ∧
    (okayState c2run).errored = true ∧
    (okayState c2run).written.map projW = [("s/an", ⟨["s", "an"], 20⟩)] ∧
    (okayState c2run).metaWrites = [] :=
  ⟨rfl, by decide, rfl, rfl, rfl⟩

/-- C2 amended: a run with an exhausted element still completes (the loop
reaches every element), but the `errored` flag suppresses the completion
metadata record for the whole run, even when other elements succeeded
and the successful output is non-empty: exactly one metadata record is
written when no element exhausted its retries, and none otherwise. -/
theorem c2_errored_suppresses_metadata (name : String) (qs : List (List String))
    (sched : List Elem) (beh : Elem → Nat → AttemptBehavior)
    (elems : List Elem) (st0 : RunState) (hne : elems ≠ []) :
    ∃ st', startAnalysing false false name qs (Except.ok elems) sched beh st0 =
        Except.ok st' ∧
      st'.errored = (st0.errored || elems.any fun e => exhausts (beh e) 5) ∧
      st'.written = st0.written ++ batchWritesF name beh st0.deleteLocalOnWrite elems ∧
      st'.metaWrites =
        (if st'.errored then st0.metaWrites else st0.metaWrites ++ [metaPath qs name]) := by
  obtain ⟨st1, hA⟩ := analyse_nodev_ok name beh elems st0
  obtain ⟨a1, a2, -, a4, -, -, -⟩ := analyse_ok_spec false name beh elems st0 st1 hA
  have hlen : ¬(elems.length = 0) := by
    simpa [List.length_eq_zero] using hne
  rw [startAnalysing]
  simp only [Bool.false_eq_true, if_false, hlen, hA]
  by_cases hE : st1.errored
  · refine ⟨st1, by simp [postAnalyse, hE], by rw [a2], by rw [a1], ?_⟩
    rw [hE, a4]
    simp
  · refine ⟨{ st1 with metaWrites := st1.metaWrites ++ [metaPath qs name] },
      by simp [postAnalyse, hE], by rw [a2], by rw [a1], ?_⟩
    have hE' : st1.errored = false := by simpa using hE
    rw [hE', a4]
    simp

/-- Closed instance of `c2_errored_suppresses_metadata` on a one-element
successful run. -/
theorem c2_errored_suppresses_metadata_witness :
    ([(⟨["s"], 7⟩ : Elem)] ≠ []) ∧
    (∃ st', startAnalysing false false "an" [["s"]]
        (Except.ok [(⟨["s"], 7⟩ : Elem)]) []
        (fun (_ : Elem) (_ : Nat) =>
          AttemptBehavior.mk (ExtOutcome.retElem ⟨["s", "an"], 70⟩) true)
        (initState true) = Except.ok st' ∧
      st'.errored = ((initState true).errored ||
        [(⟨["s"], 7⟩ : Elem)].any fun e =>
          exhausts ((fun (_ : Elem) (_ : Nat) =>
            AttemptBehavior.mk (ExtOutcome.retElem ⟨["s", "an"], 70⟩) true) e) 5) ∧
      st'.written = (initState true).written ++
        batchWritesF "an"
          (fun (_ : Elem) (_ : Nat) =>
            AttemptBehavior.mk (ExtOutcome.retElem ⟨["s", "an"], 70⟩) true)
          (initState true).deleteLocalOnWrite [(⟨["s"], 7⟩ : Elem)] ∧
      st'.metaWrites =
        (if st'.errored then (initState true).metaWrites
         else (initState true).metaWrites ++ [metaPath [["s"]] "an"])) :=
  ⟨by decide,
    c2_errored_suppresses_metadata "an" [["s"]] []
      (fun _ _ => AttemptBehavior.mk (ExtOutcome.retElem ⟨["s", "an"], 70⟩) true)
      [⟨["s"], 7⟩] (initState true) (by decide)⟩

/-- C3 counterexample: a three-element batch in which every element is
written successfully, starting from the storage default
`delete_local_on_write = true`.  The recorded flag values of the three
writes are `[true, false, false]`: the second write — an earlier element,
not the final one — already runs with the flag disabled, and after the
batch the flag is still `false`, not restored to its default — refuting
the claim that the flag is disabled only for the final element and
restored afterwards. -/
theorem c3_counterexample :
    isOkRun c3run = true ∧
    (okayState c3run).written.map (fun w => w.delLocal) = [true, false, false] ∧
    (okayState c3run).deleteLocalOnWrite = false :=
  ⟨rfl, rfl, rfl⟩

/-- C3 amended: the loop sets `delete_local_on_write` to `false` after
every element, so only the first element of the batch is processed with
the flag at its incoming default; every write performed after the first
element carries the flag `false`; and after a non-empty batch the flag
remains `false` — it is not restored to its default. -/
theorem c3_flag_per_element (isDev : Bool) (name : String)
    (beh : Elem → Nat → AttemptBehavior) (e : Elem) (rest : List Elem)
    (st st' : RunState)
    (h : analyse isDev name beh (e :: rest) st = Except.ok st') :
    st'.deleteLocalOnWrite = false ∧
    ∃ st1, attemptAnalyse isDev (beh e) e 5 (setDestQ st (destOf name e)) = Except.ok st1 ∧
      st1.deleteLocalOnWrite = st.deleteLocalOnWrite ∧
      (∀ w ∈ st1.written, w ∈ st.written ∨ w.delLocal = st.deleteLocalOnWrite) ∧
      analyse isDev name beh rest { st1 with deleteLocalOnWrite := false } = Except.ok st' ∧
      (∀ w ∈ st'.written, w ∈ st1.written ∨ w.delLocal = false) := by
  rw [analyse] at h
  cases hA : attemptAnalyse isDev (beh e) e 5 (setDestQ st (destOf name e)) with
  | error x => rw [hA] at h; cases h
  | ok st1 =>
    rw [hA] at h
    obtain ⟨a1, -, -, -, -, a6, -, -, -⟩ :=
      attempt_ok_spec isDev (beh e) e 5 (setDestQ st (destOf name e)) st1 hA
    obtain ⟨b1, -, -, -, b5, -, -⟩ :=
      analyse_ok_spec isDev name beh rest { st1 with deleteLocalOnWrite := false } st' h
    refine ⟨?_, st1, rfl, by simpa [setDestQ] using a6, ?_, h, ?_⟩
    · rw [b5]
      split <;> rfl
    · intro w hw
      rw [a1] at hw
      rcases List.mem_append.mp hw with hl | hr
      · exact Or.inl (by simpa [setDestQ] using hl)
      · exact Or.inr (by
          have := (attemptWritesF_mem (beh e) _ _ 5 w hr).2
          simpa [setDestQ] using this)
    · intro w hw
      rw [b1] at hw
      rcases List.mem_append.mp hw with hl | hr
      · exact Or.inl hl
      · exact Or.inr (batchWritesF_false name beh rest w hr)

/-- Closed instance of `c3_flag_per_element` on the concrete
three-element batch of `c3run`. -/
theorem c3_flag_per_element_witness :
    analyse false "an" c3beh [⟨["s"], 1⟩, ⟨["s"], 2⟩, ⟨["s"], 3⟩] (initState true) =
      Except.ok (okayState c3run) ∧
    ((okayState c3run).deleteLocalOnWrite = false ∧
      ∃ st1, attemptAnalyse false (c3beh ⟨["s"], 1⟩) ⟨["s"], 1⟩ 5
          (setDestQ (initState true) (destOf "an" ⟨["s"], 1⟩)) = Except.ok st1 ∧
        st1.deleteLocalOnWrite = (initState true).deleteLocalOnWrite ∧
        (∀ w ∈ st1.written, w ∈ (initState true).written ∨
          w.delLocal = (initState true).deleteLocalOnWrite) ∧
        analyse false "an" c3beh [⟨["s"], 2⟩, ⟨["s"], 3⟩]
          { st1 with deleteLocalOnWrite := false } = Except.ok (okayState c3run) ∧
        (∀ w ∈ (okayState c3run).written, w ∈ st1.written ∨ w.delLocal = false)) :=
  ⟨rfl,
    c3_flag_per_element false "an" c3beh ⟨["s"], 1⟩ [⟨["s"], 2⟩, ⟨["s"], 3⟩]
      (initState true) (okayState c3run) rfl⟩

/-- C4 counterexample: a batch of two elements from two different input
selectors.  `set_dest_q` is invoked twice, inside the loop, with two
different values, and the two elements are written under two different
destinations — refuting the claim that `dest_q` is computed and written
exactly once before dispatch, is never reassigned during the batch, and
that every element is written under one shared destination. -/
theorem c4_counterexample :
    isOkRun c4run = true ∧
    (okayState c4run).destSets = ["sa/an", "sb/an"] ∧
    (okayState c4run).destSets.length ≠ 1 ∧
    (okayState c4run).written.map (fun w => w.dest) = ["sa/an", "sb/an"] ∧
    ¬(∃ d, ∀ w ∈ (okayState c4run).written, w.dest = d) :=
  ⟨rfl, rfl, by decide, rfl, by
    rintro ⟨d, hd⟩
    have h1 := hd ⟨"sa/an", ⟨["sa", "an"], 11⟩, true⟩ (by decide)
    have h2 := hd ⟨"sb/an", ⟨["sb", "an"], 12⟩, false⟩ (by decide)
    rw [← h1] at h2
    exact absurd h2 (by decide)⟩

/-- C4 amended: `dest_q` is assigned inside the per-element loop, once
per element, computed from that element's own query as
`<selector>/<stage name>`; every write of the batch is made under the
per-element destination of some element of the batch.  A batch whose
elements all share one selector therefore has a de-facto single
destination, but a multi-selector batch reassigns `dest_q` between
elements. -/
theorem c4_dest_per_element (isDev : Bool) (name : String)
    (beh : Elem → Nat → AttemptBehavior) (es : List Elem) (st st' : RunState)
    (h : analyse isDev name beh es st = Except.ok st') :
    st'.destSets = st.destSets ++ es.map (destOf name) ∧
    (∀ w ∈ st'.written, w ∈ st.written ∨ ∃ e, e ∈ es ∧ w.dest = destOf name e) := by
  obtain ⟨b1, -, b3, -, -, -, -⟩ := analyse_ok_spec isDev name beh es st st' h
  refine ⟨b3, ?_⟩
  intro w hw
  rw [b1] at hw
  rcases List.mem_append.mp hw with hl | hr
  · exact Or.inl hl
  · exact Or.inr (batchWritesF_dest name beh st.deleteLocalOnWrite es w hr)

/-- Closed instance of `c4_dest_per_element` on the concrete two-selector
batch of `c4run`. -/
theorem c4_dest_per_element_witness :
    analyse false "an" c4beh [⟨["sa"], 1⟩, ⟨["sb"], 2⟩] (initState true) =
      Except.ok (okayState c4run) ∧
    ((okayState c4run).destSets = (initState true).destSets ++
        [⟨["sa"], 1⟩, ⟨["sb"], 2⟩].map (destOf "an") ∧
      (∀ w ∈ (okayState c4run).written, w ∈ (initState true).written ∨
        ∃ e, e ∈ [(⟨["sa"], 1⟩ : Elem), ⟨["sb"], 2⟩] ∧ w.dest = destOf "an" e)) :=
  ⟨rfl,
    c4_dest_per_element false "an" c4beh [⟨["sa"], 1⟩, ⟨["sb"], 2⟩]
      (initState true) (okayState c4run) rfl⟩

/-- C9 counterexample: in dev mode an unclassified exception aborts the
run mid-batch, so the set of written outputs depends on the processing
order.  With element 1 raising an unclassified exception and element 2
succeeding, the `in_parallel = true` run under the schedule that attempts
element 2 first persists element 2's output, while the
`in_parallel = false` run over the same input set persists nothing —
refuting the claim that the two modes always produce the same set of
written output elements. -/
theorem c9_counterexample :
    isOkRun c9parallelRun = false ∧
    isOkRun c9serialRun = false ∧
    (okayState c9parallelRun).written.map projW = [("s/an", ⟨["s", "an"], 20⟩)] ∧
    (okayState c9serialRun).written.map projW = [] ∧
    ((okayState c9parallelRun).written.map projW).toFinset ≠
      ((okayState c9serialRun).written.map projW).toFinset :=
  ⟨rfl, rfl, rfl, rfl, by decide⟩

/-- Outside dev mode a `start_analysing` run over a non-empty readable
input completes, dispatching either the serial element list or the
parallel schedule, and then writes metadata exactly when not `errored`. -/
lemma start_nodev_ok (name : String) (qs : List (List String))
    (beh : Elem → Nat → AttemptBehavior) (elems sched : List Elem)
    (inPar : Bool) (st0 : RunState) (hne : elems ≠ []) :
    ∃ st1, analyse false name beh (if inPar then sched else elems) st0 = Except.ok st1 ∧
      startAnalysing false inPar name qs (Except.ok elems) sched beh st0 =
        Except.ok (if st1.errored then st1
          else { st1 with metaWrites := st1.metaWrites ++ [metaPath qs name] }) := by
  obtain ⟨st1, hA⟩ := analyse_nodev_ok name beh (if inPar then sched else elems) st0
  have hlen : ¬(elems.length = 0) := by
    simpa [List.length_eq_zero] using hne
  refine ⟨st1, hA, ?_⟩
  rw [startAnalysing]
  simp only [hlen, if_false, hA]
  by_cases hE : st1.errored <;> simp [postAnalyse, hE]

/-- C9 amended: outside dev mode (where no exception can abort the batch)
a parallel run under any schedule — any permutation of the input
elements — and the serial run over the same configuration, storage
contents and extension-point behaviour both complete, and their written
outputs are permutations of each other, hence equal as sets,
independently of completion or write order. -/
theorem c9_parallel_serial_same_outputs (name : String) (qs : List (List String))
    (beh : Elem → Nat → AttemptBehavior) (elems sched : List Elem)
    (st0 : RunState) (hperm : sched.Perm elems) (hne : elems ≠ []) :
    ∃ stP stS,
      startAnalysing false true name qs (Except.ok elems) sched beh st0 = Except.ok stP ∧
      startAnalysing false false name qs (Except.ok elems) sched beh st0 = Except.ok stS ∧
      (stP.written.map projW).Perm (stS.written.map projW) := by
  obtain ⟨stP1, hPA, hP⟩ := start_nodev_ok name qs beh elems sched true st0 hne
  obtain ⟨stS1, hSA, hS⟩ := start_nodev_ok name qs beh elems sched false st0 hne
  simp only [if_true, if_false, Bool.false_eq_true, ite_true,
    ite_false] at hPA hSA
  obtain ⟨p1, -, -, -, -, -, -⟩ := analyse_ok_spec false name beh sched st0 stP1 hPA
  obtain ⟨s1, -, -, -, -, -, -⟩ := analyse_ok_spec false name beh elems st0 stS1 hSA
  have hpermW : (stP1.written.map projW).Perm (stS1.written.map projW) := by
    rw [p1, s1]
    simp only [List.map_append, batchWritesF_proj]
    exact List.Perm.append_left _ (hperm.flatMap_right (elemOutputs name beh))
  refine ⟨_, _, hP, hS, ?_⟩
  have wP : (if stP1.errored then stP1
      else { stP1 with metaWrites := stP1.metaWrites ++ [metaPath qs name] }).written =
      stP1.written := by
    by_cases h : stP1.errored <;> simp [h]
  have wS : (if stS1.errored then stS1
      else { stS1 with metaWrites := stS1.metaWrites ++ [metaPath qs name] }).written =
      stS1.written := by
    by_cases h : stS1.errored <;> simp [h]
  rw [wP, wS]
  exact hpermW

/-- Closed instance of `c9_parallel_serial_same_outputs` on a concrete
two-element input set and the reversing schedule. -/
theorem c9_parallel_serial_same_outputs_witness :
    ([(⟨["s"], 2⟩ : Elem), ⟨["s"], 1⟩].Perm [⟨["s"], 1⟩, ⟨["s"], 2⟩]) ∧
    ([(⟨["s"], 1⟩ : Elem), ⟨["s"], 2⟩] ≠ []) ∧
    (∃ stP stS,
      startAnalysing false true "an" [["s"]]
        (Except.ok [(⟨["s"], 1⟩ : Elem), ⟨["s"], 2⟩])
        [⟨["s"], 2⟩, ⟨["s"], 1⟩] c2beh (initState true) = Except.ok stP ∧
      startAnalysing false false "an" [["s"]]
        (Except.ok [(⟨["s"], 1⟩ : Elem), ⟨["s"], 2⟩])
        [⟨["s"], 2⟩, ⟨["s"], 1⟩] c2beh (initState true) = Except.ok stS ∧
      (stP.written.map projW).Perm (stS.written.map projW)) :=
  ⟨List.Perm.swap _ _ _, by decide,
    c9_parallel_serial_same_outputs "an" [["s"]] c2beh
      [⟨["s"], 1⟩, ⟨["s"], 2⟩] [⟨["s"], 2⟩, ⟨["s"], 1⟩] (initState true)
      (List.Perm.swap _ _ _) (by decide)⟩

lemma one_le_length_of_ne_empty (s : String) (h : s ≠ "") : 1 ≤ s.length := by
  cases s with
  | mk data =>
    cases data with
    | nil => exact absurd rfl h
    | cons c cs => simp [String.length]

lemma foldl_selector_length :
    ∀ (qs : List (List String)) (s : String),
      (List.foldl (fun acc q => acc ++ (read_query q).1) s qs).length =
        s.length + (qs.map fun q => ((read_query q).1).length).sum := by
  intro qs
  induction qs with
  | nil => intro s; simp
  | cons q rest ih =>
    intro s
    simp only [List.foldl_cons, List.map_cons, List.sum_cons]
    rw [ih]
    simp [String.length_append]
    omega

/-- The concatenated selector string of `get_selector` is as long as the
sum of the selector-name lengths. -/
lemma get_selector_length (qs : List (List String)) :
    (get_selector qs).length = (qs.map fun q => ((read_query q).1).length).sum := by
  rw [get_selector, foldl_selector_length]
  simp

lemma sum_pos_of_ne_nil : ∀ (L : List Nat), L ≠ [] → (∀ y ∈ L, 1 ≤ y) → 1 ≤ L.sum := by
  intro L hL hy
  cases L with
  | nil => exact absurd rfl hL
  | cons a as =>
    simp only [List.sum_cons]
    have := hy a (List.mem_cons_self _ _)
    omega

/-- A member of a list of at least two positive naturals is strictly
below the list's sum. -/
lemma mem_lt_sum (L : List Nat) (x : Nat) (hx : x ∈ L) (hlen : 2 ≤ L.length)
    (hy : ∀ y ∈ L, 1 ≤ y) : x + 1 ≤ L.sum := by
  obtain ⟨l1, l2, rfl⟩ := List.append_of_mem hx
  rw [List.sum_append, List.sum_cons]
  rcases l1 with _ | ⟨a, as⟩
  · have hl2 : l2 ≠ [] := by
      intro hcon
      subst hcon
      simp at hlen
    have h1 := sum_pos_of_ne_nil l2 hl2 (fun y hy2 => hy y (by simp [hy2]))
    simp only [List.sum_nil]
    omega
  · have h1 := sum_pos_of_ne_nil (a :: as) (by simp)
      (fun y hy2 => hy y (by simp only [List.mem_append]; exact Or.inl hy2))
    omega

/-- C10 counterexample: the claim asserts that the post-phase aggregate
element reads use the concatenated-selector path (`sasb/an` here), but
`__post_analyse` reads `[self.get_dest_q()]`: on the completed
two-selector batch the post-phase read query list is `["sb/an"]` — the
last element's own `<selector>/<stage name>` path — and not the
concatenated metadata path. -/
theorem c10_counterexample :
    isOkRun c10batch = true ∧
    metaPath [["sa"], ["sb"]] "an" = "sasb/an" ∧
    postReadQueries (okayState c10batch) = ["sb/an"] ∧
    postReadQueries (okayState c10batch) ≠ [metaPath [["sa"], ["sb"]] "an"] :=
  ⟨rfl, rfl, rfl, by decide⟩

/-- C10 amended: when `elements_in` has more than one input query (each
with a real, non-empty selector name), the completion metadata record is
written under the separator-free concatenation of all the selector names
followed by `/<stage name>`, while every per-element output of the main
phase is written under its own element's single
`<selector>/<stage name>` path — and the metadata path differs from every
path an element was written to.  The post-phase aggregate element read,
however, does not use the concatenated path: `__post_analyse` reads the
single query `[get_dest_q()]`, whose value after the batch is the
destination assigned for the last processed element, and that query also
differs from the metadata path. -/
theorem c10_meta_path_disjoint (isDev : Bool) (name : String)
    (qs : List (List String)) (beh : Elem → Nat → AttemptBehavior)
    (elems sched : List Elem) (d0 : Bool) (st' : RunState)
    (hqs : 2 ≤ qs.length)
    (hsel : ∀ q ∈ qs, (read_query q).1 ≠ "")
    (helems : ∀ e ∈ elems, e.query ∈ qs)
    (h : startAnalysing isDev false name qs (Except.ok elems) sched beh (initState d0) =
      Except.ok st') :
    (∀ p ∈ st'.metaWrites, p = get_selector qs ++ "/" ++ name) ∧
    (∀ w ∈ st'.written, ∃ e, e ∈ elems ∧
      w.dest = (read_query e.query).1 ++ "/" ++ name) ∧
    (∀ w ∈ st'.written, w.dest ≠ get_selector qs ++ "/" ++ name) ∧
    (∃ st1, analyse isDev name beh elems (initState d0) = Except.ok st1 ∧
      postReadQueries st1 = [(elems.map (destOf name)).getLastD ""] ∧
      (∀ q ∈ postReadQueries st1, q ≠ get_selector qs ++ "/" ++ name)) := by
  rw [startAnalysing] at h
  by_cases hlen : elems.length = 0
  · rw [if_pos hlen] at h
    cases h
  · rw [if_neg hlen] at h
    cases hA : analyse isDev name beh (if (false : Bool) then sched else elems)
        (initState d0) with
    | error x => rw [hA] at h; cases h
    | ok st1 =>
      rw [hA] at h
      have hA' : analyse isDev name beh elems (initState d0) = Except.ok st1 := by
        simpa using hA
      obtain ⟨b1, -, -, b4, -, -, -⟩ :=
        analyse_ok_spec isDev name beh elems (initState d0) st1 hA'
      have hw1 : st1.written = batchWritesF name beh d0 elems := by
        simpa [initState] using b1
      have hm1 : st1.metaWrites = [] := by
        simpa [initState] using b4
      have hdest : ∀ w ∈ st1.written, ∃ e, e ∈ elems ∧
          w.dest = (read_query e.query).1 ++ "/" ++ name := by
        intro w hw
        rw [hw1] at hw
        obtain ⟨e, he, hd⟩ := batchWritesF_dest name beh d0 elems w hw
        exact ⟨e, he, by rw [hd]; rfl⟩
      have hdiff : ∀ e ∈ elems, destOf name e ≠ get_selector qs ++ "/" ++ name := by
        intro e he heq
        have hq := helems e he
        have hslash : ("/" : String).length = 1 := rfl
        have hlen1 : (destOf name e).length =
            ((read_query e.query).1).length + 1 + name.length := by
          rw [destOf]
          simp [String.length_append, hslash]
        have hlen2 : (get_selector qs ++ "/" ++ name).length =
            (get_selector qs).length + 1 + name.length := by
          simp [String.length_append, hslash]
        have hsum : ((read_query e.query).1).length + 1 ≤ (get_selector qs).length := by
          rw [get_selector_length]
          refine mem_lt_sum _ _ ?_ (by simpa using hqs) ?_
          · exact List.mem_map_of_mem _ hq
          · intro y hy
            obtain ⟨q, hq2, rfl⟩ := List.mem_map.mp hy
            exact one_le_length_of_ne_empty _ (hsel q hq2)
        rw [heq, hlen2] at hlen1
        omega
      have hne : ∀ w ∈ st1.written, w.dest ≠ get_selector qs ++ "/" ++ name := by
        intro w hw
        obtain ⟨e, he, hd⟩ := hdest w hw
        rw [hd]
        exact hdiff e he
      have hpost : ∃ stB, analyse isDev name beh elems (initState d0) = Except.ok stB ∧
          postReadQueries stB = [(elems.map (destOf name)).getLastD ""] ∧
          (∀ q ∈ postReadQueries stB, q ≠ get_selector qs ++ "/" ++ name) := by
        have hdq := analyse_destQ isDev name beh elems (initState d0) st1 hA'
        refine ⟨st1, hA', ?_, ?_⟩
        · rw [postReadQueries, hdq]
          rfl
        · intro q hqmem
          have hqeq : q = st1.destQ := by
            simpa [postReadQueries] using hqmem
          have hnn : elems ≠ [] := by
            intro hc
            subst hc
            simp at hlen
          have hmem : st1.destQ ∈ elems.map (destOf name) := by
            rw [hdq]
            cases elems with
            | nil => exact absurd rfl hnn
            | cons e0 t =>
              rw [List.map_cons, List.getLastD_cons]
              exact List.getLastD_mem_cons _ _
          obtain ⟨e, he, hde⟩ := List.mem_map.mp hmem
          rw [hqeq, ← hde]
          exact hdiff e he
      replace h : (if st1.errored = true then Except.ok st1
          else Except.ok
            { st1 with metaWrites := st1.metaWrites ++ [metaPath qs name] }) =
          Except.ok st' := h
      have hfin : st'.written = st1.written ∧
          (∀ p ∈ st'.metaWrites, p = get_selector qs ++ "/" ++ name) := by
        by_cases hE : st1.errored = true
        · rw [if_pos hE] at h
          cases h
          exact ⟨rfl, by rw [hm1]; intro p hp; cases hp⟩
        · rw [if_neg hE] at h
          cases h
          refine ⟨rfl, ?_⟩
          intro p hp
          rw [hm1] at hp
          simpa [metaPath] using List.mem_singleton.mp (by simpa using hp)
      obtain ⟨hwr, hmw⟩ := hfin
      exact ⟨hmw, by rw [hwr]; exact hdest, by rw [hwr]; exact hne, hpost⟩

/-- Closed instance of `c10_meta_path_disjoint` on the two-selector run
`c10run`. -/
theorem c10_meta_path_disjoint_witness :
    (2 ≤ ([["sa"], ["sb"]] : List (List String)).length) ∧
    (∀ q ∈ ([["sa"], ["sb"]] : List (List String)), (read_query q).1 ≠ "") ∧
    (∀ e ∈ [(⟨["sa"], 1⟩ : Elem), ⟨["sb"], 2⟩],
      e.query ∈ ([["sa"], ["sb"]] : List (List String))) ∧
    ((∀ p ∈ (okayState c10run).metaWrites,
        p = get_selector [["sa"], ["sb"]] ++ "/" ++ "an") ∧
      (∀ w ∈ (okayState c10run).written, ∃ e,
        e ∈ [(⟨["sa"], 1⟩ : Elem), ⟨["sb"], 2⟩] ∧
        w.dest = (read_query e.query).1 ++ "/" ++ "an") ∧
      (∀ w ∈ (okayState c10run).written,
        w.dest ≠ get_selector [["sa"], ["sb"]] ++ "/" ++ "an") ∧
      (∃ stB, analyse false "an" c10beh [(⟨["sa"], 1⟩ : Elem), ⟨["sb"], 2⟩]
          (initState true) = Except.ok stB ∧
        postReadQueries stB =
          [([(⟨["sa"], 1⟩ : Elem), ⟨["sb"], 2⟩].map (destOf "an")).getLastD ""] ∧
        (∀ q ∈ postReadQueries stB,
          q ≠ get_selector [["sa"], ["sb"]] ++ "/" ++ "an"))) :=
  ⟨by decide, by decide, by decide,
    c10_meta_path_disjoint false "an" [["sa"], ["sb"]] c10beh
      [⟨["sa"], 1⟩, ⟨["sb"], 2⟩] [] true (okayState c10run)
      (by decide) (by decide) (by decide) rfl⟩

end Mtriage

